import Mathlib

/-
Shallow embedding of the real-time presence-and-messaging relay in
src/server.js: the connected-users registry (a JS Map keyed by socket id),
the socket.io handlers user_connected, send_message, typing and disconnect,
and the grace-period removal timer scheduled on disconnect.  Outbound
socket.io emissions are modelled as explicit lists of (recipient, payload)
pairs; the wall clock is threaded as an explicit Nat parameter.
-/

namespace Server

/-- A presence record, the value type of the `users` Map:
`{ username, status }` where status is the string
written by the handlers (either online or offline). -/
structure UserRecord where
  username : String
  status : String
  deriving DecidableEq, Repr

/-- The `users` Map of server.js, embedded as an association list in
insertion order, which is the iteration order of a JS Map. -/
abbrev Registry := List (String × UserRecord)

/-- JS `Map.prototype.set`: overwrite in place if the key is present
(keeping its position in iteration order), otherwise append at the end. -/
def mapSet : Registry → String → UserRecord → Registry
  | [], k, v => [(k, v)]
  | (k0, v0) :: rest, k, v =>
      if k0 = k then (k0, v) :: rest
      else (k0, v0) :: mapSet rest k v

/-- JS `Map.prototype.get`, returning `none` for a missing key. -/
def mapGet : Registry → String → Option UserRecord
  | [], _ => none
  | (k0, v0) :: rest, k => if k0 = k then some v0 else mapGet rest k

/-- JS `Map.prototype.delete` (on a registry with unique keys,
removing every pair with the key equals removing the entry). -/
def mapDelete (m : Registry) (k : String) : Registry :=
  m.filter fun p => decide (p.1 ≠ k)

/-- The mutable server state: the `users` registry plus the set of live
socket ids (`io.sockets.sockets`), kept as a list of distinct ids. -/
structure ServerState where
  users : Registry
  connected : List String
  deriving DecidableEq, Repr

/-- An outbound socket.io payload, one constructor per emitted event name. -/
inductive Payload where
  | user_status_changed (userId username status : String) (timestamp : Nat)
  | users_list (entries : List (String × String × String))
  | receive_message («from» username message : String) (isPrivate : Bool) (timestamp : Nat)
  | user_typing (userId username : String) (isTyping : Bool)
  deriving DecidableEq, Repr

/-- One outbound emission: which socket receives which payload. -/
structure Emit where
  recipient : String
  payload : Payload
  deriving DecidableEq, Repr

/-- The `user_connected` handler: `users.set(socket.id, {username, status:
online})`, then `io.emit(user_status_changed, ...)` to every live socket,
then `socket.emit(users_list, ...)` of the updated registry to the joining
socket only. -/
def user_connected (st : ServerState) (socketId username : String) (now : Nat) :
    ServerState × List Emit :=
  let users := mapSet st.users socketId ⟨username, "online"⟩
  let statusEmits := st.connected.map fun c =>
    (⟨c, .user_status_changed socketId username "online" now⟩ : Emit)
  let listEmit : List Emit :=
    [⟨socketId, .users_list (users.map fun p => (p.1, p.2.username, p.2.status))⟩]
  (⟨users, st.connected⟩, statusEmits ++ listEmit)

/-- JS truthiness of the optional `to` field: `undefined`/absent and the
empty string are falsy, any other string is truthy. -/
def truthy : Option String → Bool
  | none => false
  | some s => decide (s ≠ "")

/-- The display name used by `send_message`:
`sender?.username || Unknown`. -/
def senderName (st : ServerState) (socketId : String) : String :=
  match mapGet st.users socketId with
  | some u => u.username
  | none => "Unknown"

/-- The `send_message` handler.  With a truthy `to`, `socket.to(to).emit`
reaches exactly the socket whose id-room is `to` (if live), excluding the
sender; otherwise `socket.broadcast.emit` reaches every live socket except
the sender.  The handler mutates no state; it only emits. -/
def send_message (st : ServerState) (socketId : String) (toField : Option String)
    (message : String) (now : Nat) : List Emit :=
  let username := senderName st socketId
  if truthy toField then
    match toField with
    | some target =>
        (st.connected.filter fun c => decide (c = target ∧ c ≠ socketId)).map fun c =>
          (⟨c, .receive_message socketId username message true now⟩ : Emit)
    | none => []
  else
    (st.connected.filter fun c => decide (c ≠ socketId)).map fun c =>
      (⟨c, .receive_message socketId username message false now⟩ : Emit)

/-- The `typing` handler: dropped when the sender has no registry record,
otherwise `socket.broadcast.emit(user_typing, ...)` to all but the sender. -/
def typing (st : ServerState) (socketId : String) (isTyping : Bool) : List Emit :=
  match mapGet st.users socketId with
  | none => []
  | some user =>
      (st.connected.filter fun c => decide (c ≠ socketId)).map fun c =>
        (⟨c, .user_typing socketId user.username isTyping⟩ : Emit)

/-- A grace-period removal scheduled by the disconnect handler: the socket
id it will re-check, and the absolute time it fires (schedule time + 60000 ms). -/
structure Timer where
  socketId : String
  fireTime : Nat
  deriving DecidableEq, Repr

/-- The `disconnect` handler.  The transport has already removed the socket
from `io.sockets.sockets` when the handler runs.  If the socket has no
registry record, nothing further happens; otherwise the record's status is
set to offline in place, `io.emit(user_status_changed, ...)` notifies the
remaining live sockets, and one removal timer is scheduled 60000 ms out. -/
def disconnect (st : ServerState) (socketId : String) (now : Nat) :
    ServerState × List Emit × List Timer :=
  let connected := st.connected.filter fun c => decide (c ≠ socketId)
  match mapGet st.users socketId with
  | none => (⟨st.users, connected⟩, [], [])
  | some user =>
      let users := mapSet st.users socketId { user with status := "offline" }
      let emits := connected.map fun c =>
        (⟨c, .user_status_changed socketId user.username "offline" now⟩ : Emit)
      (⟨users, connected⟩, emits, [⟨socketId, now + 60000⟩])

/-- The body of the `setTimeout` callback in the disconnect handler:
`if (!io.sockets.sockets.has(socket.id)) users.delete(socket.id)` —
liveness is queried at fire time, and the record is deleted only when the
socket id is not live then. -/
def graceRemoval (st : ServerState) (socketId : String) : ServerState :=
  if socketId ∈ st.connected then st
  else ⟨mapDelete st.users socketId, st.connected⟩

/-- Whole-process state for the serialized event loop: the server state,
the queue of pending removal timers, and the log of all emissions so far. -/
structure SysState where
  server : ServerState
  pending : List Timer
  log : List Emit
  deriving DecidableEq, Repr

/-- One inbound occurrence the event loop serializes: a transport connect,
one of the four handlers, or a pending timer firing (identified by its
position in the pending queue). -/
inductive Event where
  | connect (socketId : String)
  | join (socketId username : String) (now : Nat)
  | msg (socketId : String) (toField : Option String) (message : String) (now : Nat)
  | typingEv (socketId : String) (isTyping : Bool)
  | disconnectEv (socketId : String) (now : Nat)
  | fireTimer (i : Nat)

/-- The serialized event-loop step: each inbound event runs its handler to
completion, appending its emissions to the log; a disconnect enqueues its
timer; a firing timer is dequeued and runs `graceRemoval`.  No event other
than its own firing ever dequeues a pending timer. -/
def step (s : SysState) : Event → SysState
  | .connect sid =>
      ⟨⟨s.server.users, s.server.connected ++ [sid]⟩, s.pending, s.log⟩
  | .join sid name now =>
      let r := user_connected s.server sid name now
      ⟨r.1, s.pending, s.log ++ r.2⟩
  | .msg sid t m now =>
      ⟨s.server, s.pending, s.log ++ send_message s.server sid t m now⟩
  | .typingEv sid b =>
      ⟨s.server, s.pending, s.log ++ typing s.server sid b⟩
  | .disconnectEv sid now =>
      let r := disconnect s.server sid now
      ⟨r.1, s.pending ++ r.2.2, s.log ++ r.2.1⟩
  | .fireTimer i =>
      match s.pending[i]? with
      | none => s
      | some t => ⟨graceRemoval s.server t.socketId, s.pending.eraseIdx i, s.log⟩

/-! ### Registry lemmas -/

theorem mapGet_mapSet_self (m : Registry) (k : String) (v : UserRecord) :
    mapGet (mapSet m k v) k = some v := by
  induction m with
  | nil => simp [mapSet, mapGet]
  | cons p rest ih =>
      obtain ⟨k0, v0⟩ := p
      by_cases h : k0 = k
      · simp [mapSet, mapGet, h]
      · simp [mapSet, mapGet, h, ih]

theorem mapGet_mapSet_ne (m : Registry) (k k' : String) (v : UserRecord)
    (h : k' ≠ k) : mapGet (mapSet m k v) k' = mapGet m k' := by
  induction m with
  | nil => simp [mapSet, mapGet, Ne.symm h]
  | cons p rest ih =>
      obtain ⟨k0, v0⟩ := p
      by_cases h0 : k0 = k
      · subst h0
        simp [mapSet, mapGet, Ne.symm h]
      · simp [mapSet, mapGet, h0, ih]

theorem keys_mapSet_of_get (m : Registry) (k : String) (u v : UserRecord)
    (h : mapGet m k = some u) :
    (mapSet m k v).map Prod.fst = m.map Prod.fst := by
  induction m with
  | nil => simp [mapGet] at h
  | cons p rest ih =>
      obtain ⟨k0, v0⟩ := p
      by_cases h0 : k0 = k
      · simp [mapSet, h0]
      · simp [mapGet, h0] at h
        simp [mapSet, h0, ih h]

theorem mem_keys_of_get (m : Registry) (k : String) (v : UserRecord)
    (h : mapGet m k = some v) : k ∈ m.map Prod.fst := by
  induction m with
  | nil => simp [mapGet] at h
  | cons p rest ih =>
      obtain ⟨k0, v0⟩ := p
      by_cases h0 : k0 = k
      · simp [h0]
      · simp [mapGet, h0] at h
        simp [ih h]

theorem mapDelete_nil (k : String) : mapDelete [] k = [] := by
  simp [mapDelete]

theorem mapDelete_cons (k0 : String) (v0 : UserRecord) (rest : Registry) (k : String) :
    mapDelete ((k0, v0) :: rest) k =
      if k0 = k then mapDelete rest k else (k0, v0) :: mapDelete rest k := by
  by_cases h : k0 = k <;> simp [mapDelete, h]

theorem mapGet_mapDelete_self (m : Registry) (k : String) :
    mapGet (mapDelete m k) k = none := by
  induction m with
  | nil => simp [mapDelete_nil, mapGet]
  | cons p rest ih =>
      obtain ⟨k0, v0⟩ := p
      by_cases h0 : k0 = k
      · simp [mapDelete_cons, h0, ih]
      · simp [mapDelete_cons, mapGet, h0, ih]

theorem mapGet_mapDelete_ne (m : Registry) (k k' : String) (h : k' ≠ k) :
    mapGet (mapDelete m k) k' = mapGet m k' := by
  induction m with
  | nil => simp [mapDelete_nil]
  | cons p rest ih =>
      obtain ⟨k0, v0⟩ := p
      by_cases h0 : k0 = k
      · subst h0
        simp [mapDelete_cons, mapGet, Ne.symm h, ih]
      · simp [mapDelete_cons, mapGet, h0, ih]

/-! ### Delivery-list lemmas -/

theorem filter_target_eq_single (l : List String) (hnd : l.Nodup) (b a : String)
    (hba : b ≠ a) :
    (l.filter fun c => decide (c = b ∧ c ≠ a)) = if b ∈ l then [b] else [] := by
  induction l with
  | nil => simp
  | cons x xs ih =>
      obtain ⟨hx, hxs⟩ := List.nodup_cons.mp hnd
      by_cases hxb : x = b
      · subst hxb
        rw [List.filter_cons_of_pos (by simp [hba])]
        rw [ih hxs]
        simp [hx]
      · rw [List.filter_cons_of_neg (by simp [hxb])]
        rw [ih hxs]
        simp [List.mem_cons, Ne.symm hxb]

theorem broadcast_emits_count (l : List String) (hnd : l.Nodup) (p : Payload)
    (a c : String) :
    ((l.filter fun x => decide (x ≠ a)).map fun x => (⟨x, p⟩ : Emit)).count ⟨c, p⟩ =
      if c ∈ l ∧ c ≠ a then 1 else 0 := by
  induction l with
  | nil => simp
  | cons x xs ih =>
      obtain ⟨hx, hxs⟩ := List.nodup_cons.mp hnd
      by_cases hxa : x = a
      · subst hxa
        rw [List.filter_cons_of_neg (by simp)]
        rw [ih hxs]
        by_cases hca : c = x
        · simp [hca]
        · simp [hca]
      · rw [List.filter_cons_of_pos (by simp [hxa])]
        rw [List.map_cons, List.count_cons]
        rw [ih hxs]
        by_cases hcx : c = x
        · subst hcx
          simp [hx, hxa]
        · simp [List.mem_cons, hcx, Ne.symm hcx]

/-! ### Claim theorems -/

/-- C1: after onJoin(I, name) — the user_connected handler — the registry
lookup get(I) returns a record with status online, snapshot() includes I,
and a status_changed notification {identity, displayName, status: online,
timestamp} is emitted to every connected party. -/
theorem user_connected_registers_online (st : ServerState) (sid name : String)
    (now : Nat) :
    mapGet (user_connected st sid name now).1.users sid = some ⟨name, "online"⟩ ∧
    sid ∈ (user_connected st sid name now).1.users.map Prod.fst ∧
    ∀ c ∈ st.connected,
      (⟨c, .user_status_changed sid name "online" now⟩ : Emit) ∈
        (user_connected st sid name now).2 := by
  refine ⟨by simp [user_connected, mapGet_mapSet_self], ?_, ?_⟩
  · exact mem_keys_of_get _ sid ⟨name, "online"⟩
      (by simp [user_connected, mapGet_mapSet_self])
  · intro c hc
    simp only [user_connected, List.mem_append, List.mem_map]
    exact Or.inl ⟨c, hc, rfl⟩

theorem user_connected_registers_online_witness :
    (⟨"s1", .user_status_changed "s1" "alice" "online" 0⟩ : Emit) ∈
      (user_connected ⟨[], ["s1"]⟩ "s1" "alice" 0).2 :=
  (user_connected_registers_online ⟨[], ["s1"]⟩ "s1" "alice" 0).2.2 "s1" (by simp)

/-- C2: a directed send_message from A to a provided (truthy) target B
delivers exactly one receive_message with isPrivate true to B when B is a
live connection, and nothing to anyone (sender included) otherwise. -/
theorem send_message_private_exactly_one (st : ServerState) (a b m : String)
    (now : Nat) (hnd : st.connected.Nodup) (hba : b ≠ a) (hb : b ≠ "") :
    send_message st a (some b) m now =
      if b ∈ st.connected then
        [⟨b, .receive_message a (senderName st a) m true now⟩]
      else [] := by
  have ht : truthy (some b) = true := by simp [truthy, hb]
  simp only [send_message, ht, if_true]
  rw [filter_target_eq_single st.connected hnd b a hba]
  by_cases hmem : b ∈ st.connected <;> simp [hmem]

theorem send_message_private_exactly_one_witness :
    send_message ⟨[("s1", ⟨"alice", "online"⟩)], ["s1", "s2"]⟩ "s1" (some "s2") "hi" 7 =
      [⟨"s2", .receive_message "s1" "alice" "hi" true 7⟩] := by
  have h := send_message_private_exactly_one
    ⟨[("s1", ⟨"alice", "online"⟩)], ["s1", "s2"]⟩ "s1" "s2" "hi" 7
    (by decide) (by decide) (by decide)
  simpa [senderName, mapGet] using h

/-- C3: a broadcast send_message (no target) delivers receive_message with
isPrivate false to every connected party except the sender, exactly once per
recipient, and delivers nothing to the sender. -/
theorem send_message_broadcast_all_but_sender (st : ServerState) (a m : String)
    (now : Nat) (hnd : st.connected.Nodup) :
    (∀ c, (send_message st a none m now).count
        ⟨c, .receive_message a (senderName st a) m false now⟩ =
      if c ∈ st.connected ∧ c ≠ a then 1 else 0) ∧
    ∀ e ∈ send_message st a none m now,
      e.recipient ≠ a ∧ e.recipient ∈ st.connected := by
  constructor
  · intro c
    simpa [send_message, truthy] using
      broadcast_emits_count st.connected hnd
        (.receive_message a (senderName st a) m false now) a c
  · intro e he
    simp only [send_message] at he
    rw [if_neg (by simp [truthy])] at he
    obtain ⟨x, hx, rfl⟩ := List.mem_map.mp he
    have hx' := List.mem_filter.mp hx
    exact ⟨by simpa using hx'.2, hx'.1⟩

theorem send_message_broadcast_all_but_sender_witness :
    (send_message ⟨[("s1", ⟨"alice", "online"⟩)], ["s1", "s2"]⟩ "s1" none "hi" 7).count
        ⟨"s2", .receive_message "s1" (senderName
          ⟨[("s1", ⟨"alice", "online"⟩)], ["s1", "s2"]⟩ "s1") "hi" false 7⟩ = 1 := by
  have h := (send_message_broadcast_all_but_sender
    ⟨[("s1", ⟨"alice", "online"⟩)], ["s1", "s2"]⟩ "s1" "hi" 7 (by decide)).1 "s2"
  simpa using h

/-- C4: onDisconnect for an identity with no registry record is a no-op on
the registry, emits no notification, and schedules no removal timer. -/
theorem disconnect_unjoined_noop (st : ServerState) (sid : String) (now : Nat)
    (h : mapGet st.users sid = none) :
    (disconnect st sid now).1.users = st.users ∧
    (disconnect st sid now).2.1 = [] ∧
    (disconnect st sid now).2.2 = [] := by
  simp [disconnect, h]

theorem disconnect_unjoined_noop_witness :
    (disconnect ⟨[], ["s1"]⟩ "s1" 0).2.1 = [] :=
  (disconnect_unjoined_noop ⟨[], ["s1"]⟩ "s1" 0 (by decide)).2.1

/-- C5: onDisconnect for a joined identity sets its record's status to
offline in place, keeps the displayName, leaves every other registry entry
unchanged, and the record is still retrievable right after the call. -/
theorem disconnect_sets_offline_frame (st : ServerState) (sid : String)
    (u : UserRecord) (now : Nat) (h : mapGet st.users sid = some u) :
    mapGet (disconnect st sid now).1.users sid = some ⟨u.username, "offline"⟩ ∧
    ∀ k, k ≠ sid → mapGet (disconnect st sid now).1.users k = mapGet st.users k := by
  constructor
  · simp [disconnect, h, mapGet_mapSet_self]
  · intro k hk
    simp [disconnect, h, mapGet_mapSet_ne _ _ _ _ hk]

theorem disconnect_sets_offline_frame_witness :
    mapGet (disconnect ⟨[("s1", ⟨"alice", "online"⟩)], ["s1"]⟩ "s1" 0).1.users "s1" =
      some ⟨"alice", "offline"⟩ :=
  (disconnect_sets_offline_frame ⟨[("s1", ⟨"alice", "online"⟩)], ["s1"]⟩ "s1"
    ⟨"alice", "online"⟩ 0 (by decide)).1

/-- Reduction of the event-loop step for a firing timer found in the
pending queue. -/
theorem step_fireTimer_eq (s : SysState) (i : Nat) (t : Timer)
    (h : s.pending[i]? = some t) :
    step s (.fireTimer i) =
      ⟨graceRemoval s.server t.socketId, s.pending.eraseIdx i, s.log⟩ := by
  simp [step, h]

/-- C6: at fire time a grace-period removal deletes I's record iff I is not
live at the transport layer at that moment (other entries untouched); a
join never dequeues a pending timer, and a disconnect only appends to the
pending queue, so concurrent timers each re-check liveness independently. -/
theorem grace_timer_liveness_recheck :
    (∀ (s : SysState) (sid name : String) (now : Nat),
      (step s (.join sid name now)).pending = s.pending) ∧
    (∀ (s : SysState) (sid : String) (now : Nat),
      ∃ ts, (step s (.disconnectEv sid now)).pending = s.pending ++ ts) ∧
    (∀ (s : SysState) (i : Nat) (t : Timer), s.pending[i]? = some t →
      (mapGet (step s (.fireTimer i)).server.users t.socketId =
        if t.socketId ∈ s.server.connected then mapGet s.server.users t.socketId
        else none) ∧
      ∀ k, k ≠ t.socketId →
        mapGet (step s (.fireTimer i)).server.users k = mapGet s.server.users k) := by
  refine ⟨fun s sid name now => rfl,
    fun s sid now => ⟨(disconnect s.server sid now).2.2, rfl⟩, ?_⟩
  intro s i t h
  rw [step_fireTimer_eq s i t h]
  constructor
  · by_cases hl : t.socketId ∈ s.server.connected
    · simp [graceRemoval, hl]
    · simp [graceRemoval, hl, mapGet_mapDelete_self]
  · intro k hk
    by_cases hl : t.socketId ∈ s.server.connected
    · simp [graceRemoval, hl]
    · simp [graceRemoval, hl, mapGet_mapDelete_ne _ _ _ hk]

theorem grace_timer_liveness_recheck_witness :
    mapGet (step ⟨⟨[("s1", ⟨"alice", "offline"⟩)], []⟩, [⟨"s1", 60000⟩], []⟩
      (.fireTimer 0)).server.users "s1" = none := by
  have h := (grace_timer_liveness_recheck.2.2
    ⟨⟨[("s1", ⟨"alice", "offline"⟩)], []⟩, [⟨"s1", 60000⟩], []⟩ 0
    ⟨"s1", 60000⟩ rfl).1
  simpa using h

/-- C7: when the sender has no registry record, send_message substitutes
the sentinel name Unknown and the send still completes: the broadcast still
reaches everyone but the sender, and every directed payload carries the
sentinel name. -/
theorem unknown_sender_still_routes (st : ServerState) (a m : String) (now : Nat)
    (h : mapGet st.users a = none) :
    senderName st a = "Unknown" ∧
    send_message st a none m now =
      ((st.connected.filter fun c => decide (c ≠ a)).map fun c =>
        (⟨c, .receive_message a "Unknown" m false now⟩ : Emit)) ∧
    ∀ b, b ≠ "" → ∀ e ∈ send_message st a (some b) m now,
      e.payload = .receive_message a "Unknown" m true now := by
  have hs : senderName st a = "Unknown" := by simp [senderName, h]
  refine ⟨hs, ?_, ?_⟩
  · simp only [send_message, hs]
    rw [if_neg (by simp [truthy])]
  · intro b hb e he
    have ht : truthy (some b) = true := by simp [truthy, hb]
    simp only [send_message, hs, ht, if_true] at he
    obtain ⟨x, hx, rfl⟩ := List.mem_map.mp he
    rfl

theorem unknown_sender_still_routes_witness :
    send_message ⟨[], ["s1", "s2"]⟩ "s1" none "hi" 7 =
      [⟨"s2", .receive_message "s1" "Unknown" "hi" false 7⟩] := by
  have h := (unknown_sender_still_routes ⟨[], ["s1", "s2"]⟩ "s1" "hi" 7 rfl).2.1
  simpa using h

/-- C8: setTyping with no presence record emits nothing; with a record it
broadcasts {identity, displayName, isTyping} exactly once to every other
connected party, and the handler mutates neither the server state nor the
timer queue. -/
theorem typing_relay_behavior (st : ServerState) (sid : String) (b : Bool) :
    (mapGet st.users sid = none → typing st sid b = []) ∧
    (∀ u, mapGet st.users sid = some u → st.connected.Nodup →
      ∀ c, (typing st sid b).count ⟨c, .user_typing sid u.username b⟩ =
        if c ∈ st.connected ∧ c ≠ sid then 1 else 0) ∧
    (∀ s : SysState, (step s (.typingEv sid b)).server = s.server ∧
      (step s (.typingEv sid b)).pending = s.pending) := by
  refine ⟨fun h => by simp [typing, h], ?_, fun s => ⟨rfl, rfl⟩⟩
  intro u hu hnd c
  simpa [typing, hu] using
    broadcast_emits_count st.connected hnd (.user_typing sid u.username b) sid c

theorem typing_relay_behavior_witness :
    (typing ⟨[("s1", ⟨"alice", "online"⟩)], ["s1", "s2"]⟩ "s1" true).count
      ⟨"s2", .user_typing "s1" "alice" true⟩ = 1 := by
  have h := (typing_relay_behavior ⟨[("s1", ⟨"alice", "online"⟩)], ["s1", "s2"]⟩
    "s1" true).2.1 ⟨"alice", "online"⟩ rfl (by decide) "s2"
  simpa using h

/-- C9: snapshot order is insertion order and the roster goes only to the
joiner: with A connected, A's join emits a status change and a roster (just
A) to A alone; after B connects, B's join emits the status change to A and
B and a roster listing A then B to B alone — A gets no roster. -/
theorem roster_scenario_insertion_order (a b na nb : String) (hab : a ≠ b)
    (t1 t2 : Nat) :
    (user_connected ⟨[], [a]⟩ a na t1).2 =
      [⟨a, .user_status_changed a na "online" t1⟩,
       ⟨a, .users_list [(a, na, "online")]⟩] ∧
    (user_connected ⟨[], [a]⟩ a na t1).1 = ⟨[(a, ⟨na, "online"⟩)], [a]⟩ ∧
    (user_connected ⟨[(a, ⟨na, "online"⟩)], [a, b]⟩ b nb t2).2 =
      [⟨a, .user_status_changed b nb "online" t2⟩,
       ⟨b, .user_status_changed b nb "online" t2⟩,
       ⟨b, .users_list [(a, na, "online"), (b, nb, "online")]⟩] := by
  refine ⟨?_, ?_, ?_⟩ <;> simp [user_connected, mapSet, hab]

theorem roster_scenario_insertion_order_witness :
    (user_connected ⟨[("A", ⟨"alice", "online"⟩)], ["A", "B"]⟩ "B" "bob" 1).2 =
      [⟨"A", .user_status_changed "B" "bob" "online" 1⟩,
       ⟨"B", .user_status_changed "B" "bob" "online" 1⟩,
       ⟨"B", .users_list [("A", "alice", "online"), ("B", "bob", "online")]⟩] :=
  (roster_scenario_insertion_order "A" "B" "alice" "bob" (by decide) 0 1).2.2

/-- C10: a second onJoin for an identity already in the registry overwrites
its record with the new name and status online, leaves every other entry
unchanged, and keeps the identity at its original position in the snapshot
key order. -/
theorem rejoin_preserves_position (st : ServerState) (sid name : String)
    (now : Nat) (u : UserRecord) (h : mapGet st.users sid = some u) :
    (user_connected st sid name now).1.users.map Prod.fst =
      st.users.map Prod.fst ∧
    mapGet (user_connected st sid name now).1.users sid = some ⟨name, "online"⟩ ∧
    ∀ k, k ≠ sid →
      mapGet (user_connected st sid name now).1.users k = mapGet st.users k := by
  simp only [user_connected]
  exact ⟨keys_mapSet_of_get _ _ u _ h, mapGet_mapSet_self _ _ _,
    fun k hk => mapGet_mapSet_ne _ _ _ _ hk⟩

theorem rejoin_preserves_position_witness :
    (user_connected ⟨[("s1", ⟨"alice", "online"⟩), ("s2", ⟨"bob", "online"⟩)],
        ["s1", "s2"]⟩ "s1" "anna" 9).1.users.map Prod.fst = ["s1", "s2"] := by
  have h := (rejoin_preserves_position
    ⟨[("s1", ⟨"alice", "online"⟩), ("s2", ⟨"bob", "online"⟩)], ["s1", "s2"]⟩
    "s1" "anna" 9 ⟨"alice", "online"⟩ rfl).1
  simpa using h

end Server
